import Mathlib

/-!
Verification development for the `qt_property_widgets` package.

The development shallowly embeds the reflection, binding and serialization
core of the package:

* `utilities.py`: `get_class_properties` / `get_properties` (attribute
  reflection), `PersistentPropertiesMixin.to_dict` / `from_dict` /
  `__setstate__` / `type_convert` (the serializer), `ComplexEncoder.default`
  (scalar encoding rules), and `ActionObject` / `create_action_object`
  (action proxies).
* `widgets.py`: `WidgetSetterProperty` (the bidirectional-binding wrapped
  setter together with its inner `check_lists` helper),
  `PropertyWidget.get_widget_class_from_value_class` (control-registry
  resolution) and `is_subtype`.

Modelling conventions:

* Python attribute values are the inductive `Value`.  Python `==` on these
  values is structural; it is modelled by `Value.beq`, proved equivalent to
  propositional equality, so Lean `=` on `Value` coincides with the deep
  (element-wise on lists) equality the source relies on.
* Properties of a mixin class are modelled as field-backed accessors: the
  getter of property `p` reads field `p.name` of the instance's field map
  and the setter (when present) writes it.  This mirrors the package's
  contract that a reflected attribute is a gettable/settable piece of state.
* Instances in the serialization model carry data properties only; the
  action-object sub-trees of `to_dict` / `__setstate__` concern
  `ActionObject`, which is modelled separately (`create_action_object`,
  `ActionObject.call`).
* Exceptions are modelled by `PyErr`.  `__setstate__` mutates its instance
  in place in Python, so its model returns the fields written so far paired
  with an optional error instead of an `Except`.
-/

namespace QtPW

/-- Python values flowing through the reflection / serialization core:
`None`, ints, strings, bools, `pathlib.Path`, enumeration members (carrying
their enum class name, member name and underlying value), `QColor`, `QFont`,
lists, plain dicts (serialization trees), and mixin instances (class name
plus field map). -/
inductive Value where
  | vnone
  | vint (n : Int)
  | vstr (s : String)
  | vbool (b : Bool)
  | vpath (s : String)
  | venum (ecls : String) (member : String) (underlying : String)
  | vcolor (r g b a : Int)
  | vfont (family : String) (pointSize : Int) (bold italic underline strikeOut : Bool)
  | vlist (xs : List Value)
  | vdict (fields : List (String × Value))
  | vinst (cls : String) (fields : List (String × Value))

mutual

/-- Structural equality on `Value`: the model of Python `==` (deep,
element-wise on lists and dicts). -/
def Value.beq : Value → Value → Bool
  | .vnone, .vnone => true
  | .vint a, .vint b => a == b
  | .vstr a, .vstr b => a == b
  | .vbool a, .vbool b => a == b
  | .vpath a, .vpath b => a == b
  | .venum a m u, .venum b n w => a == b && m == n && u == w
  | .vcolor r g b a, .vcolor r' g' b' a' => r == r' && g == g' && b == b' && a == a'
  | .vfont f p b i u s, .vfont f' p' b' i' u' s' =>
      f == f' && p == p' && b == b' && i == i' && u == u' && s == s'
  | .vlist xs, .vlist ys => Value.listBeq xs ys
  | .vdict xs, .vdict ys => Value.fieldsBeq xs ys
  | .vinst c xs, .vinst c' ys => c == c' && Value.fieldsBeq xs ys
  | _, _ => false

/-- Element-wise equality of value lists. -/
def Value.listBeq : List Value → List Value → Bool
  | [], [] => true
  | x :: xs, y :: ys => Value.beq x y && Value.listBeq xs ys
  | _, _ => false

/-- Key/value-wise equality of field maps. -/
def Value.fieldsBeq : List (String × Value) → List (String × Value) → Bool
  | [], [] => true
  | (k, v) :: xs, (k', v') :: ys => k == k' && Value.beq v v' && Value.fieldsBeq xs ys
  | _, _ => false

end

set_option maxHeartbeats 1600000 in
mutual

theorem Value.beq_iff : ∀ (a b : Value), Value.beq a b = true ↔ a = b := by
  intro a b
  cases a <;> cases b <;>
    first
      | (simp [Value.beq, and_assoc]
         done)
      | (simp only [Value.beq, Value.vlist.injEq]
         exact Value.listBeq_iff _ _)
      | (simp only [Value.beq, Value.vdict.injEq]
         exact Value.fieldsBeq_iff _ _)
      | (simp only [Value.beq, Value.vinst.injEq, Bool.and_eq_true, beq_iff_eq]
         rw [Value.fieldsBeq_iff _ _])

theorem Value.listBeq_iff : ∀ (xs ys : List Value), Value.listBeq xs ys = true ↔ xs = ys
  | [], [] => by simp [Value.listBeq]
  | [], _ :: _ => by simp [Value.listBeq]
  | _ :: _, [] => by simp [Value.listBeq]
  | x :: xs, y :: ys => by
      simp only [Value.listBeq, Bool.and_eq_true, List.cons.injEq]
      rw [Value.beq_iff x y, Value.listBeq_iff xs ys]

theorem Value.fieldsBeq_iff :
    ∀ (xs ys : List (String × Value)), Value.fieldsBeq xs ys = true ↔ xs = ys
  | [], [] => by simp [Value.fieldsBeq]
  | [], _ :: _ => by simp [Value.fieldsBeq]
  | _ :: _, [] => by simp [Value.fieldsBeq]
  | (k, v) :: xs, (k', v') :: ys => by
      simp only [Value.fieldsBeq, Bool.and_eq_true, beq_iff_eq, List.cons.injEq,
        Prod.mk.injEq, and_assoc]
      rw [Value.beq_iff v v', Value.fieldsBeq_iff xs ys]

end

instance : DecidableEq Value := fun a b =>
  decidable_of_iff (Value.beq a b = true) (Value.beq_iff a b)

/-- Python exceptions observed by the modelled code.  `invalidEnumValue` is
the `ValueError` raised by an enum lookup `EnumClass(value)` (the spec calls
it `InvalidEnumValue`); `noWidgetFound` is the `ValueError` raised by
`get_widget_class_from_value_class` (the spec calls it `NoControlFound`). -/
inductive PyErr where
  | typeError
  | valueError
  | keyError
  | indexError
  | attributeError
  | invalidEnumValue
  | noWidgetFound
deriving DecidableEq

/-- An enumeration class: its name and its members in declaration order,
each member carrying its underlying value (modelled as a string, as in the
spec's `Color` example). -/
structure EnumDef where
  name : String
  members : List (String × String)
deriving DecidableEq

/-- Declared value types appearing as property type hints and as control
registry keys: scalars, `pathlib.Path`, a concrete enumeration class, the
`Enum` base class itself, `QColor`, `QFont`, `list[elem]`, bare `list`,
`Mapping[k, v]`, a (mixin) class by name, and `object`. -/
inductive Ty where
  | tint
  | tstr
  | tbool
  | tpath
  | tenum (e : EnumDef)
  | tenumBase
  | tcolor
  | tfont
  | tlist (elem : Ty)
  | tlistRaw
  | tmap (k v : Ty)
  | tcls (clsName : String)
  | tobj
deriving DecidableEq

/-- One reflected attribute as declared on a class: its name, the getter's
return type hint (when annotated), whether a setter is declared, and the
`dont_encode` flag from the getter's `parameters` map.  The getter reads
field `name` of the instance's field map and the setter writes it: the
model's properties are field-backed state accessors. -/
structure PropDef where
  name : String
  hint : Option Ty
  hasSetter : Bool
  dontEncode : Bool
deriving DecidableEq

/-- One step of Python dict insertion `properties[prop_name] = prop`:
replace in place when the key is present (keeping its position), otherwise
append. -/
def insertProp (acc : List PropDef) (p : PropDef) : List PropDef :=
  if acc.any (fun q => q.name = p.name) then
    acc.map (fun q => if q.name = p.name then p else q)
  else acc ++ [p]

/-- `get_class_properties(cls)`: the properties one class declares itself,
in class-dict (declaration) order; the model represents a class level
directly by that list. -/
def get_class_properties (declared : List PropDef) : List PropDef := declared

/-- `get_properties(cls)`: walk `reversed(cls.mro())` — most-ancestral
level first — and merge each level's declared properties into a single
insertion-ordered dict. -/
def get_properties (ancestry : List (List PropDef)) : List PropDef :=
  ancestry.foldl (fun acc cp => (get_class_properties cp).foldl insertProp acc) []

/-- The last declaration of `p.name` among `p` followed by `rest`. -/
def lastDecl (p : PropDef) (rest : List PropDef) : PropDef :=
  (rest.filter (fun q => q.name = p.name)).foldl (fun _ q => q) p

/-- Modelled from the spec's merge description (§4.1): every name keeps the
position of its first declaration in the most-ancestral-first concatenation
of declarations, and maps to its last (most-derived) declaration. -/
def canonicalMerge : List PropDef → List PropDef
  | [] => []
  | p :: rest =>
      lastDecl p rest :: canonicalMerge (rest.filter (fun q => ¬ (q.name = p.name)))
termination_by l => l.length
decreasing_by
  simp only [List.length_cons]
  exact Nat.lt_succ_of_le (List.length_filter_le _ _)

/-- A class participating in the persistence mixin: its name, its method
resolution order (as names, most-derived first, itself included), its
per-level declared properties (most-ancestral level first, matching
`reversed(cls.mro())`), the field map of a freshly constructed instance,
and its `_known_types` registry when that attribute exists. -/
structure ClassDef where
  name : String
  mro : List String
  ancestry : List (List PropDef)
  defaults : List (String × Value)
  knownTypes : Option (List String)
deriving DecidableEq

/-- The process-wide set of modelled classes. -/
abbrev ClassTable := List ClassDef

def lookupClass (ct : ClassTable) (n : String) : Option ClassDef :=
  ct.find? (fun c => c.name = n)

/-- The merged property table of a class, as `get_properties` computes it. -/
def classProps (cls : ClassDef) : List PropDef :=
  get_properties cls.ancestry

def mroOf (ct : ClassTable) (n : String) : List String :=
  match lookupClass ct n with
  | some c => c.mro
  | none => [n]

/-- Dict lookup `fs[k]` as an option. -/
def lookupField (fs : List (String × Value)) (k : String) : Option Value :=
  (fs.find? (fun p => p.1 = k)).map Prod.snd

/-- The getter of the field-backed property named `k`: reads the field. -/
def getField (fs : List (String × Value)) (k : String) : Value :=
  match lookupField fs k with
  | some v => v
  | none => .vnone

/-- The setter of the field-backed property named `k`: dict-insert the
field (replace in place when present, else append). -/
def setField (fs : List (String × Value)) (k : String) (v : Value) : List (String × Value) :=
  if fs.any (fun p => p.1 = k) then fs.map (fun p => if p.1 = k then (k, v) else p)
  else fs ++ [(k, v)]

/-- Python `isinstance(value, target_class)` where `target_class` is
`typing.get_origin(target_type) or target_type`, so a `list[T]` hint
checks against `list` and a `Mapping[K, V]` hint against `Mapping`.
`bool` is a subclass of `int`; everything is an instance of `object`;
instances of mixin classes match any class in their mro. -/
def isinstanceV (ct : ClassTable) (v : Value) (ty : Ty) : Bool :=
  match v, ty with
  | _, .tobj => true
  | .vint _, .tint => true
  | .vbool _, .tint => true
  | .vbool _, .tbool => true
  | .vstr _, .tstr => true
  | .vpath _, .tpath => true
  | .venum e _ _, .tenum d => e = d.name
  | .venum _ _ _, .tenumBase => true
  | .vcolor _ _ _ _, .tcolor => true
  | .vfont _ _ _ _ _ _, .tfont => true
  | .vlist _, .tlist _ => true
  | .vlist _, .tlistRaw => true
  | .vdict _, .tmap _ _ => true
  | .vinst c _, .tcls n => n ∈ mroOf ct c
  | _, _ => false

/-- Models Python "call the class on the value": the `converter =
item_type` case of `type_convert`'s list branch for non-mixin element
types.  Calling a concrete enum class looks a member up by underlying value
and raises `ValueError` (spec: `InvalidEnumValue`) when absent. -/
def pyCallClass (ty : Ty) (v : Value) : Except PyErr Value :=
  match ty with
  | .tenum e =>
      match v with
      | .vstr s =>
          match e.members.find? (fun m => m.2 = s) with
          | some m => .ok (.venum e.name m.1 m.2)
          | none => .error .invalidEnumValue
      | _ => .error .invalidEnumValue
  | .tpath =>
      match v with
      | .vstr s => .ok (.vpath s)
      | _ => .error .typeError
  | .tint =>
      match v with
      | .vint n => .ok (.vint n)
      | .vbool b => .ok (.vint (if b then 1 else 0))
      | _ => .error .typeError
  | .tbool =>
      match v with
      | .vbool b => .ok (.vbool b)
      | _ => .error .typeError
  | .tstr =>
      match v with
      | .vstr s => .ok (.vstr s)
      | _ => .error .typeError
  | .tlist _ =>
      match v with
      | .vlist xs => .ok (.vlist xs)
      | _ => .error .typeError
  | _ => .error .typeError

/-- The discriminator resolution at the head of `from_dict`: when the tree
carries `"__class__"` and the class has `_known_types`, take the first
known type whose name equals the discriminator; otherwise — including when
no registered name matches — keep the class `from_dict` was called on. -/
def resolve_target (cls : ClassDef) (state : List (String × Value)) : String :=
  match lookupField state "__class__", cls.knownTypes with
  | some tv, some kts =>
      match kts.find? (fun kt => Value.vstr kt = tv) with
      | some kt => kt
      | none => cls.name
  | _, _ => cls.name

mutual

/-- `PersistentPropertiesMixin.type_convert(value, target_type)`: when the
value is not an instance of the hint's origin class, apply the
Path/Enum/QColor/QFont conversions (any other class leaves the raw value
unchanged); when it is an instance and the origin is `list`, coerce the
elements one by one (a bare un-parameterized `list` hint makes
`get_args(...)[0]` raise `IndexError`). -/
def type_convert (ct : ClassTable) (value : Value) (target_type : Ty) : Except PyErr Value :=
  if ¬ isinstanceV ct value target_type then
    match target_type with
    | .tpath =>
        match value with
        | .vnone => .ok .vnone
        | .vstr s => .ok (.vpath s)
        | _ => .error .typeError
    | .tenum e =>
        (match value with
         | .vstr s =>
             match e.members.find? (fun m => m.2 = s) with
             | some m => .ok (.venum e.name m.1 m.2)
             | none => .error .invalidEnumValue
         | _ => .error .invalidEnumValue)
    | .tenumBase => .error .invalidEnumValue
    | .tcolor =>
        (match value with
         | .vlist [.vint r, .vint g, .vint b] => .ok (.vcolor r g b 255)
         | .vlist [.vint r, .vint g, .vint b, .vint a] => .ok (.vcolor r g b a)
         | _ => .error .typeError)
    | .tfont =>
        (match value with
         | .vdict fs =>
             (match lookupField fs "family", lookupField fs "pointSize", lookupField fs "bold",
                    lookupField fs "italic", lookupField fs "underline",
                    lookupField fs "strikeOut" with
              | some (.vstr fam), some (.vint pt), some (.vbool b), some (.vbool i),
                some (.vbool u), some (.vbool so) => .ok (.vfont fam pt b i u so)
              | _, _, _, _, _, _ => .error .keyError)
         | _ => .error .typeError)
    | _ => .ok value
  else
    match target_type with
    | .tlist elem =>
        (match value with
         | .vlist xs => do
             let ys ← convert_items ct elem xs
             .ok (.vlist ys)
         | _ => .ok value)
    | .tlistRaw => .error .indexError
    | _ => .ok value

/-- The per-element coercion of `type_convert`'s list branch:
`converter(item) if not isinstance(item, item_type) else item`, with
`converter = item_type.from_dict` when the element type is a mixin class
(`from_dict` on a non-dict tree fails in `state.items()`) and the element
class itself otherwise. -/
def convert_items (ct : ClassTable) (item_type : Ty) (xs : List Value) :
    Except PyErr (List Value) :=
  match xs with
  | [] => .ok []
  | x :: rest => do
      let x' ←
        if isinstanceV ct x item_type then Except.ok x
        else
          match item_type with
          | .tcls c =>
              (match x with
               | .vdict fs => from_dict ct c fs
               | _ => Except.error PyErr.attributeError)
          | t => pyCallClass t x
      let rest' ← convert_items ct item_type rest
      Except.ok (x' :: rest')

/-- `PersistentPropertiesMixin.from_dict(cls, state)`: resolve the target
class through the discriminator, construct a default instance of the
resolved class and run `__setstate__` on it.  The action-object branch of
the classmethod body is not reached by modelled instances. -/
def from_dict (ct : ClassTable) (clsName : String) (state : List (String × Value)) :
    Except PyErr Value :=
  match lookupClass ct clsName with
  | none => Except.error PyErr.keyError
  | some cls =>
      match lookupClass ct (resolve_target cls state) with
      | none => Except.error PyErr.keyError
      | some rcls =>
          match __setstate__ ct rcls rcls.defaults state with
          | (fields, none) => Except.ok (Value.vinst rcls.name fields)
          | (_, some e) => Except.error e

/-- `PersistentPropertiesMixin.__setstate__(state)`: for each tree key that
names a reflected property, convert the raw value through the getter's
return hint (when annotated) and write it through the setter when one is
declared; unknown keys are skipped.  Python mutates the instance in place
and has no handler around `type_convert`, so the model returns the fields
written so far paired with the first conversion error, which aborts the
iteration.  (The `_action_objects` branch is not modelled: instances of the
serialization model carry data properties only.) -/
def __setstate__ (ct : ClassTable) (cls : ClassDef) (fields : List (String × Value))
    (state : List (String × Value)) : List (String × Value) × Option PyErr :=
  match state with
  | [] => (fields, none)
  | (key, value) :: rest =>
      match (classProps cls).find? (fun p => p.name = key) with
      | some prop =>
          (match prop.hint with
           | some return_type =>
               (match type_convert ct value return_type with
                | .error e => (fields, some e)
                | .ok v' =>
                    __setstate__ ct cls
                      (if prop.hasSetter then setField fields key v' else fields) rest)
           | none =>
               __setstate__ ct cls
                 (if prop.hasSetter then setField fields key value else fields) rest)
      | none => __setstate__ ct cls fields rest

end

/-- `PersistentPropertiesMixin.to_dict`: read every reflected property's
current value through its getter, in merged declaration order, skipping
properties whose getter carries `dont_encode`; optionally prepend the
`__class__` discriminator.  (The trailing `_action_objects` loop is not
modelled: instances of the serialization model carry data properties
only.) -/
def to_dict (cls : ClassDef) (fields : List (String × Value)) (include_class_name : Bool) :
    List (String × Value) :=
  (if include_class_name then [("__class__", Value.vstr cls.name)] else []) ++
    (classProps cls).filterMap (fun p =>
      if ¬ p.dontEncode then some (p.name, getField fields p.name) else none)

/-- `ComplexEncoder.default(obj)`: the per-object encoding rule the JSON
encoder applies to one non-native object (the json library itself recurses
into the returned structure): paths to strings, enum members to their
underlying value, colors to component tuples, mixin instances to their
`to_dict` tree, fonts to a keyed structure; anything else raises
`TypeError`. -/
def ComplexEncoder_default (ct : ClassTable) (obj : Value) : Except PyErr Value :=
  match obj with
  | .vpath s => .ok (.vstr s)
  | .venum _ _ u => .ok (.vstr u)
  | .vcolor r g b a => .ok (.vlist [.vint r, .vint g, .vint b, .vint a])
  | .vinst c fs =>
      match lookupClass ct c with
      | some cls => .ok (.vdict (to_dict cls fs false))
      | none => .error .keyError
  | .vfont fam pt b i u so =>
      .ok (.vdict [("family", .vstr fam), ("pointSize", .vint pt), ("bold", .vbool b),
        ("italic", .vbool i), ("underline", .vbool u), ("strikeOut", .vbool so)])
  | _ => .error .typeError

/-- `is_subtype(child_type, parent_type)` from `widgets.py`: exact match;
plain-class `issubclass` (everything under `object`, `bool` under `int`,
concrete enums under `Enum`, classes through their mro); covariant
parameterized generics of the same origin (the model's only mapping origin
is `tmap`, so the source's any-Mapping-to-any-Mapping special rule
coincides with the same-origin rule); and a parameterized child against its
raw origin class (`list[X]` against bare `list`). -/
def is_subtype (ct : ClassTable) : Ty → Ty → Bool
  | c, p =>
    if c = p then true
    else
      (match c, p with
       | _, .tobj => true
       | .tbool, .tint => true
       | .tenum _, .tenumBase => true
       | .tcls a, .tcls b => decide (b ∈ mroOf ct a)
       | _, _ => false)
      ||
      (match c, p with
       | .tlist a, .tlist b => is_subtype ct a b
       | .tmap k v, .tmap k' v' => is_subtype ct k k' && is_subtype ct v v'
       | _, _ => false)
      ||
      (match c, p with
       | .tlist _, .tlistRaw => true
       | _, _ => false)

/-- A control (widget) class as the registry sees it: its name, its
`len(mro())`, and whether it is `PropertyForm`, the generic
composite-object form control. -/
structure WidgetCls where
  name : String
  mroLen : Nat
  isPropertyForm : Bool
deriving DecidableEq

/-- The key of `candidates.sort`: the control type's mro length plus a 999
penalty when the candidate is `PropertyForm`. -/
def widgetSortKey (w : WidgetCls) : Nat :=
  w.mroLen + (if w.isPropertyForm then 999 else 0)

/-- `PropertyWidget._known_type_widgets` in registration (dict insertion)
order: value type to control class. -/
abbrev WidgetRegistry := List (Ty × WidgetCls)

/-- The candidate list of `get_widget_class_from_value_class`: registered
controls whose value type admits the requested one, in registration
order. -/
def candidatesOf (ct : ClassTable) (reg : WidgetRegistry) (cls : Ty) : List WidgetCls :=
  reg.filterMap (fun kw => if is_subtype ct cls kw.1 then some kw.2 else none)

/-- The first element attaining the minimal key — what Python's stable
ascending `sort` followed by `candidates[0]` returns. -/
def firstMinBy (key : WidgetCls → Nat) (x : WidgetCls) (xs : List WidgetCls) : WidgetCls :=
  xs.foldl (fun best y => if key y < key best then y else best) x

/-- `PropertyWidget.get_widget_class_from_value_class(cls)`: collect the
candidates, raise `ValueError` (spec: `NoControlFound`) when there are
none, otherwise sort ascending by `widgetSortKey` (Python's sort is
stable) and return `candidates[0]`. -/
def get_widget_class_from_value_class (ct : ClassTable) (reg : WidgetRegistry) (cls : Ty) :
    Except PyErr WidgetCls :=
  match candidatesOf ct reg cls with
  | [] => .error .noWidgetFound
  | x :: xs => .ok (firstMinBy widgetSortKey x xs)

/-- The state a `WidgetSetterProperty` acts on for one bound object: the
attribute's stored value (read by `fget`, written by `source_prop.fset`
when declared), whether the source property declares a setter, whether the
object has a `changed` signal, and the displayed values of the bound
widgets (`self.binds[obj]`) in bind order. -/
structure BindState where
  attrVal : Value
  hasSourceSetter : Bool
  hasChangedSignal : Bool
  widgets : List Value
deriving DecidableEq

/-- The observable side effects of one `wrapped_setter` call: how many
times the original setter ran, how many times `changed` was emitted, and
the indices of the bound widgets whose displayed value was assigned. -/
structure SetterEvents where
  sourceSetterCalls : Nat
  changedEmits : Nat
  pushes : List Nat
deriving DecidableEq

/-- The empty effect record. -/
def noEvents : SetterEvents := ⟨0, 0, []⟩

/-- Python `len(value)` (raises `TypeError` on non-sized values). -/
def pyLen : Value → Except PyErr Nat
  | .vlist xs => .ok xs.length
  | .vstr s => .ok s.length
  | .vdict fs => .ok fs.length
  | _ => .error .typeError

/-- `all(a == b for a, b in zip(current_value, value, strict=True))` with
Python's evaluation order: pairs are compared left to right, `all` stops at
the first unequal pair, and `strict=True` raises `ValueError` only when one
list runs out first while all compared pairs were equal. -/
def allZipStrict : List Value → List Value → Except PyErr Bool
  | [], [] => .ok true
  | [], _ :: _ => .error .valueError
  | _ :: _, [] => .error .valueError
  | x :: xs, y :: ys => if x = y then allZipStrict xs ys else .ok false

/-- `check_lists(a, b)` as written in the source: the length guard compares
the parameters `a` and `b`, but the generator expression shadows them with
its own loop variables and therefore zips the enclosing scope's
`current_value` and `value` (`cv` and `v` here) instead.  Zipping is
modelled for list operands — the shapes the call sites produce. -/
def check_lists (cv v a b : Value) : Except PyErr Bool := do
  let la ← pyLen a
  let lb ← pyLen b
  if la ≠ lb then return false
  else
    match cv, v with
    | .vlist cvs, .vlist vs => allZipStrict cvs vs
    | _, _ => Except.error PyErr.typeError

/-- The `for widget in self.binds.get(obj, [])` loop of `wrapped_setter`:
skip a widget when its displayed value equals the new value, or when the
value is a list and `check_lists(current_widget_value, value)` returns
true; otherwise assign `widget.value = value`.  An exception aborts the
loop: earlier assignments persist, later widgets stay untouched.
(Assigning `widget.value` is modelled as updating the displayed value; the
change-signal re-emission some widget classes perform on programmatic
assignment re-enters `wrapped_setter` only to return at its equality
guard.) -/
def push_widgets (current value : Value) (ws : List Value) (i : Nat) :
    List Value × List Nat × Option PyErr :=
  match ws with
  | [] => ([], [], none)
  | w :: rest =>
      if w = value then
        let (rest', pushed, err) := push_widgets current value rest (i + 1)
        (w :: rest', pushed, err)
      else
        match value with
        | .vlist _ =>
            (match check_lists current value w value with
             | .error e => (w :: rest, [], some e)
             | .ok true =>
                 let (rest', pushed, err) := push_widgets current value rest (i + 1)
                 (w :: rest', pushed, err)
             | .ok false =>
                 let (rest', pushed, err) := push_widgets current value rest (i + 1)
                 (value :: rest', i :: pushed, err))
        | _ =>
            let (rest', pushed, err) := push_widgets current value rest (i + 1)
            (value :: rest', i :: pushed, err)

/-- The body of `wrapped_setter` past its equality guards: call the
original setter when declared, emit the object's `changed` signal when
present, then run the widget push loop. -/
def wrapped_setter_go (st : BindState) (current value : Value) :
    BindState × SetterEvents × Option PyErr :=
  let st1 := if st.hasSourceSetter then { st with attrVal := value } else st
  let (ws', pushed, err) := push_widgets current value st1.widgets 0
  ({ st1 with widgets := ws' },
   ⟨if st.hasSourceSetter then 1 else 0, if st.hasChangedSignal then 1 else 0, pushed⟩,
   err)

/-- `WidgetSetterProperty.wrapped_setter(obj, value)`: read the current
value through `fget`; return immediately when the incoming value equals it,
or when the incoming value is a list and `check_lists(current_value,
value)` says equal; otherwise run the setter, the `changed` emission and
the widget push loop.  Python mutates in place, so the returned state keeps
the effects performed before any exception. -/
def wrapped_setter (st : BindState) (value : Value) :
    BindState × SetterEvents × Option PyErr :=
  let current := st.attrVal
  if current = value then (st, noEvents, none)
  else
    match value with
    | .vlist _ =>
        (match check_lists current value current value with
         | .error e => (st, noEvents, some e)
         | .ok true => (st, noEvents, none)
         | .ok false => wrapped_setter_go st current value)
    | _ => wrapped_setter_go st current value

/-- One formal parameter of an action: its name and its declared default
(`none` models `inspect.Parameter.empty`, which `__init__` maps to
`None`). -/
structure ActionParam where
  name : String
  dflt : Option Value
deriving DecidableEq

/-- The argument state `ActionObject.__init__` builds: one slot per formal
parameter in signature order — the declared default, or `None` when the
parameter has none — then `args["self"] = instance`. -/
def initArgs (params : List ActionParam) (inst : Value) : List (String × Value) :=
  setField (params.map (fun p => (p.name, p.dflt.getD Value.vnone))) "self" inst

/-- An `ActionObject`: the wrapped function (modelled by the return value
it would produce from given kwargs), the owning instance, and the argument
slots. -/
structure ActionObject where
  funcRet : List (String × Value) → Value
  inst : Value
  args : List (String × Value)

/-- `create_action_object(func, instance)`: builds the action object with
its initialized argument slots.  The per-argument properties it synthesizes
on `ActionObjectSpec` are the accessors `ActionObject.getArg` /
`ActionObject.setArg`. -/
def create_action_object (funcRet : List (String × Value) → Value)
    (params : List ActionParam) (inst : Value) : ActionObject :=
  { funcRet := funcRet, inst := inst, args := initArgs params inst }

/-- The synthesized per-argument property getter: `obj.args.get(k, None)`. -/
def ActionObject.getArg (a : ActionObject) (k : String) : Value :=
  getField a.args k

/-- The synthesized per-argument property setter: `obj.args[k] = v`. -/
def ActionObject.setArg (a : ActionObject) (k : String) (v : Value) : ActionObject :=
  { a with args := setField a.args k v }

/-- What one `ActionObject.__call__` does: the kwargs passed to the
underlying function, the value that function returned, and what the call
itself returns to its caller. -/
structure CallOutcome where
  passedKwargs : List (String × Value)
  funcResult : Value
  returned : Value

/-- `ActionObject.__call__`: `self.func(**self.args)` — every current
argument slot (including `"self"`) is passed as a keyword argument, the
function's result is discarded, and the call returns `None`. -/
def ActionObject.call (a : ActionObject) : CallOutcome :=
  { passedKwargs := a.args, funcResult := a.funcRet a.args, returned := Value.vnone }

/-- An attribute access on an instance: a getter call or a setter call. -/
inductive AttrEff where
  | getf (name : String)
  | setf (name : String) (v : Value)
deriving DecidableEq

/-- The sequence of attribute accesses `to_dict` performs on its instance:
one getter call per encoded property, in merged declaration order, and
nothing else. -/
def to_dict_accesses (cls : ClassDef) : List AttrEff :=
  (classProps cls).filterMap (fun p =>
    if ¬ p.dontEncode then some (AttrEff.getf p.name) else none)

/-- How an attribute access acts on the instance's field map: getters
read, setters write. -/
def runAttrEff (fs : List (String × Value)) : AttrEff → List (String × Value)
  | .getf _ => fs
  | .setf k v => setField fs k v

/-- A well-typed stored value for a hint: the value is an instance of the
hint's origin class and, for `list[E]` hints, every element is an instance
of `E` (bare `list` hints are never well-typed: coercing them raises). -/
def wellTypedVal (ct : ClassTable) (v : Value) : Ty → Bool
  | .tlist e =>
      (match v with
       | .vlist xs => xs.all (fun x => isinstanceV ct x e)
       | _ => false)
  | .tlistRaw => false
  | ty => isinstanceV ct v ty

section Fixtures

/-- Fixture: a base mixin class with one int attribute and a Known-Types
Set registering `Derived`. -/
def baseCls : ClassDef :=
  { name := "Base", mro := ["Base", "object"],
    ancestry := [[⟨"x", some Ty.tint, true, false⟩]],
    defaults := [("x", Value.vint 0)],
    knownTypes := some ["Derived"] }

/-- Fixture: a subtype of `Base`. -/
def derivedCls : ClassDef :=
  { name := "Derived", mro := ["Derived", "Base", "object"],
    ancestry := [[⟨"x", some Ty.tint, true, false⟩]],
    defaults := [("x", Value.vint 0)],
    knownTypes := none }

/-- Fixture: the class table holding `Base` and `Derived`. -/
def demoTable : ClassTable := [baseCls, derivedCls]

/-- Fixture: the spec's `Color` enumeration with members RED, GREEN and
BLUE (underlying values equal to the member names). -/
def colorEnum : EnumDef :=
  ⟨"Color", [("RED", "RED"), ("GREEN", "GREEN"), ("BLUE", "BLUE")]⟩

/-- Fixture: a mixin class with an enum-typed attribute followed by a
string attribute. -/
def thingCls : ClassDef :=
  { name := "Thing", mro := ["Thing", "object"],
    ancestry := [[⟨"color", some (Ty.tenum colorEnum), true, false⟩,
                  ⟨"name", some Ty.tstr, true, false⟩]],
    defaults := [("color", Value.venum "Color" "RED" "RED"), ("name", Value.vstr "")],
    knownTypes := none }

/-- Fixture: a control registered for the value type `Base`. -/
def wBase : WidgetCls := ⟨"BaseValueWidget", 5, false⟩

/-- Fixture: a control registered for the value type `Derived`; same
ancestry-chain length as `wBase`, registered after it. -/
def wDerived : WidgetCls := ⟨"DerivedValueWidget", 5, false⟩

/-- Fixture: the registry holding the `Base` and `Derived` registrations in
registration order. -/
def demoRegistry : WidgetRegistry :=
  [(Ty.tcls "Base", wBase), (Ty.tcls "Derived", wDerived)]

/-- Fixture: a composite value class with two int attributes. -/
def pointCls : ClassDef :=
  { name := "Point", mro := ["Point", "object"],
    ancestry := [[⟨"x", some Ty.tint, true, false⟩, ⟨"y", some Ty.tint, true, false⟩]],
    defaults := [("x", Value.vint 0), ("y", Value.vint 0)],
    knownTypes := none }

/-- Fixture: a polymorphic base with a Known-Types Set. -/
def shapeCls : ClassDef :=
  { name := "Shape", mro := ["Shape", "object"], ancestry := [[]],
    defaults := [], knownTypes := some ["Circle", "Square"] }

/-- Fixture: one concrete `Shape` subtype. -/
def circleCls : ClassDef :=
  { name := "Circle", mro := ["Circle", "Shape", "object"],
    ancestry := [[⟨"radius", some Ty.tint, true, false⟩]],
    defaults := [("radius", Value.vint 1)], knownTypes := none }

/-- Fixture: the other concrete `Shape` subtype. -/
def squareCls : ClassDef :=
  { name := "Square", mro := ["Square", "Shape", "object"],
    ancestry := [[⟨"side", some Ty.tint, true, false⟩]],
    defaults := [("side", Value.vint 1)], knownTypes := none }

/-- Fixture: an aggregate class with a string attribute, a nested composite
attribute, a polymorphic list attribute and an enum attribute. -/
def sceneCls : ClassDef :=
  { name := "Scene", mro := ["Scene", "object"],
    ancestry := [[⟨"title", some Ty.tstr, true, false⟩,
                  ⟨"origin", some (Ty.tcls "Point"), true, false⟩,
                  ⟨"items", some (Ty.tlist (Ty.tcls "Shape")), true, false⟩,
                  ⟨"color", some (Ty.tenum colorEnum), true, false⟩]],
    defaults := [("title", Value.vstr ""),
                 ("origin", Value.vinst "Point" [("x", Value.vint 0), ("y", Value.vint 0)]),
                 ("items", Value.vlist []),
                 ("color", Value.venum "Color" "RED" "RED")],
    knownTypes := none }

/-- Fixture: the class table for the `Scene` example. -/
def sceneTable : ClassTable := [sceneCls, pointCls, shapeCls, circleCls, squareCls]

/-- Fixture: the field map of a populated `Scene` instance, holding a
nested `Point` and a polymorphic list of a `Circle` and a `Square`. -/
def sceneInstFields : List (String × Value) :=
  [("title", Value.vstr "demo"),
   ("origin", Value.vinst "Point" [("x", Value.vint 3), ("y", Value.vint 4)]),
   ("items", Value.vlist [Value.vinst "Circle" [("radius", Value.vint 2)],
                          Value.vinst "Square" [("side", Value.vint 5)]]),
   ("color", Value.venum "Color" "GREEN" "GREEN")]

end Fixtures

section FieldLemmas

theorem find?_map_replace (fs : List (String × Value)) (k : String) (v : Value) :
    (fs.map (fun p => if p.1 = k then (k, v) else p)).find? (fun p => p.1 = k)
      = if fs.any (fun p => p.1 = k) then some (k, v) else none := by
  induction fs with
  | nil => rfl
  | cons hd tl ih =>
      rw [List.map_cons, List.any_cons]
      by_cases hhd : hd.1 = k
      · rw [if_pos hhd, List.find?_cons_of_pos _ (by simp)]
        simp [hhd]
      · rw [if_neg hhd, List.find?_cons_of_neg _ (by simpa using hhd), ih]
        rw [decide_eq_false hhd, Bool.false_or]

theorem find?_map_replace_ne (fs : List (String × Value)) (k k' : String) (v : Value)
    (h : k' ≠ k) :
    (fs.map (fun p => if p.1 = k then (k, v) else p)).find? (fun p => p.1 = k')
      = fs.find? (fun p => p.1 = k') := by
  induction fs with
  | nil => rfl
  | cons hd tl ih =>
      rw [List.map_cons]
      by_cases hhd : hd.1 = k
      · have h1 : ¬ (hd.1 = k') := fun hk => h (by rw [← hk, hhd])
        have h2 : ¬ ((k, v).1 = k') := fun hk => h hk.symm
        rw [if_pos hhd, List.find?_cons_of_neg _ (by simpa using h2),
          List.find?_cons_of_neg _ (by simpa using h1)]
        exact ih
      · rw [if_neg hhd]
        by_cases h2 : hd.1 = k'
        · rw [List.find?_cons_of_pos _ (by simpa using h2),
            List.find?_cons_of_pos _ (by simpa using h2)]
        · rw [List.find?_cons_of_neg _ (by simpa using h2),
            List.find?_cons_of_neg _ (by simpa using h2)]
          exact ih

theorem lookupField_setField_self (fs : List (String × Value)) (k : String) (v : Value) :
    lookupField (setField fs k v) k = some v := by
  unfold setField
  by_cases hany : fs.any (fun p => p.1 = k)
  · rw [if_pos hany]
    unfold lookupField
    rw [find?_map_replace, if_pos hany]
    rfl
  · rw [if_neg hany]
    unfold lookupField
    rw [List.find?_append]
    have hnone : fs.find? (fun p => decide (p.1 = k)) = none := by
      rw [List.find?_eq_none]
      intro x hx hk
      simp only [decide_eq_true_eq] at hk
      exact hany (List.any_eq_true.mpr ⟨x, hx, by simpa using hk⟩)
    rw [hnone]
    simp

theorem lookupField_setField_ne (fs : List (String × Value)) (k k' : String) (v : Value)
    (h : k' ≠ k) : lookupField (setField fs k v) k' = lookupField fs k' := by
  unfold setField
  by_cases hany : fs.any (fun p => p.1 = k)
  · rw [if_pos hany]
    unfold lookupField
    rw [find?_map_replace_ne fs k k' v h]
  · rw [if_neg hany]
    unfold lookupField
    rw [List.find?_append]
    have h2 : List.find? (fun p => decide (p.1 = k')) [(k, v)] = none := by
      simp [Ne.symm h]
    rw [h2]
    simp

theorem getField_setField_self (fs : List (String × Value)) (k : String) (v : Value) :
    getField (setField fs k v) k = v := by
  simp [getField, lookupField_setField_self]

theorem getField_setField_ne (fs : List (String × Value)) (k k' : String) (v : Value)
    (h : k' ≠ k) : getField (setField fs k v) k' = getField fs k' := by
  simp [getField, lookupField_setField_ne fs k k' v h]

end FieldLemmas

section BindingTheorems

/-- C5: for a reflected attribute with a setter and bound controls,
assigning the attribute's current value back to it (`set(get())`) is a
no-op — the wrapped setter returns at its equality guard, so the original
setter is not invoked, no `changed` notification is emitted and no bound
control's displayed value is re-pushed.  Lean equality on `Value` is
structural, i.e. the deep, element-wise-on-sequences equality the guard
uses. -/
theorem set_get_noop (st : BindState) :
    wrapped_setter st st.attrVal = (st, noEvents, none) := by
  simp [wrapped_setter]

/-- C3 (code bug, evaluated at the failing input): the attribute holds
`[1, 2]`, code assigns `[1, 2, 3]`, and the single bound control displays
`[1, 2, 9]`.  The claim says the push is suppressed by deep equality
against the control's displayed value and the differing control is updated
exactly once; instead `check_lists`'s generator expression shadows its
parameters, zips the attribute's old value `[1, 2]` against `[1, 2, 3]`
with `strict=True`, and raises `ValueError` after the setter ran and
`changed` was emitted — the bound control is never updated. -/
theorem wrapped_setter_shadowed_zip_raises :
    wrapped_setter
      { attrVal := Value.vlist [Value.vint 1, Value.vint 2],
        hasSourceSetter := true, hasChangedSignal := true,
        widgets := [Value.vlist [Value.vint 1, Value.vint 2, Value.vint 9]] }
      (Value.vlist [Value.vint 1, Value.vint 2, Value.vint 3])
    = ({ attrVal := Value.vlist [Value.vint 1, Value.vint 2, Value.vint 3],
         hasSourceSetter := true, hasChangedSignal := true,
         widgets := [Value.vlist [Value.vint 1, Value.vint 2, Value.vint 9]] },
       ⟨1, 1, []⟩, some PyErr.valueError) := by
  decide

end BindingTheorems

section ToDictFrame

theorem to_dict_accesses_gets (cls : ClassDef) :
    ∀ e ∈ to_dict_accesses cls, ∃ n, e = AttrEff.getf n := by
  intro e he
  simp only [to_dict_accesses, List.mem_filterMap] at he
  obtain ⟨p, -, hp⟩ := he
  by_cases hd : p.dontEncode <;> simp [hd] at hp
  exact ⟨p.name, hp.symm⟩

theorem foldl_runAttrEff_of_gets (l : List AttrEff) (fs : List (String × Value))
    (h : ∀ e ∈ l, ∃ n, e = AttrEff.getf n) :
    l.foldl runAttrEff fs = fs := by
  induction l generalizing fs with
  | nil => rfl
  | cons e rest ih =>
      obtain ⟨n, rfl⟩ := h e (by simp)
      rw [List.foldl_cons]
      exact ih fs (fun x hx => h x (by simp [hx]))

/-- C9: serializing with `to_dict` leaves the instance unchanged — the
attribute accesses it performs are getter calls only (one per encoded
property), running them writes nothing, and every reflected attribute
reads the same value after serialization as before. -/
theorem to_dict_frame (cls : ClassDef) (fields : List (String × Value)) :
    (to_dict_accesses cls).foldl runAttrEff fields = fields ∧
    (∀ e ∈ to_dict_accesses cls, ∃ n, e = AttrEff.getf n) ∧
    (∀ p ∈ classProps cls,
        getField ((to_dict_accesses cls).foldl runAttrEff fields) p.name
          = getField fields p.name) := by
  have h1 := foldl_runAttrEff_of_gets (to_dict_accesses cls) fields
    (to_dict_accesses_gets cls)
  exact ⟨h1, to_dict_accesses_gets cls, fun p _ => by rw [h1]⟩

end ToDictFrame

section ActionTheorems

theorem foldl_setArg_preserves (updates : List (String × Value)) (a : ActionObject)
    (h : ∀ u ∈ updates, ¬ (u.1 = "self")) :
    (updates.foldl (fun b kv => b.setArg kv.1 kv.2) a).inst = a.inst ∧
    lookupField (updates.foldl (fun b kv => b.setArg kv.1 kv.2) a).args "self"
      = lookupField a.args "self" := by
  induction updates generalizing a with
  | nil => exact ⟨rfl, rfl⟩
  | cons u rest ih =>
      have h1 : ¬ (u.1 = "self") := h u (by simp)
      have h2 := ih (a.setArg u.1 u.2) (fun x hx => h x (by simp [hx]))
      rw [List.foldl_cons]
      refine ⟨h2.1, ?_⟩
      rw [h2.2]
      exact lookupField_setField_ne a.args u.1 "self" u.2 (fun hk => h1 hk.symm)

/-- C10: invoking an action proxy returns `None` to its caller regardless
of the current argument values (the underlying operation's return value is
never propagated), and passes the owning instance under the keyword
`"self"` together with every other current argument slot as keyword
arguments — for any sequence of argument edits that do not touch the
`"self"` slot. -/
theorem action_call_returns_none (funcRet : List (String × Value) → Value)
    (params : List ActionParam) (inst : Value) (updates : List (String × Value))
    (h : ∀ u ∈ updates, ¬ (u.1 = "self")) :
    ((updates.foldl (fun b kv => b.setArg kv.1 kv.2)
        (create_action_object funcRet params inst)).call).returned = Value.vnone ∧
    lookupField ((updates.foldl (fun b kv => b.setArg kv.1 kv.2)
        (create_action_object funcRet params inst)).call).passedKwargs "self" = some inst ∧
    ((updates.foldl (fun b kv => b.setArg kv.1 kv.2)
        (create_action_object funcRet params inst)).call).passedKwargs
      = (updates.foldl (fun b kv => b.setArg kv.1 kv.2)
          (create_action_object funcRet params inst)).args := by
  refine ⟨rfl, ?_, rfl⟩
  have h2 := foldl_setArg_preserves updates (create_action_object funcRet params inst) h
  show lookupField (updates.foldl (fun b kv => b.setArg kv.1 kv.2)
      (create_action_object funcRet params inst)).args "self" = some inst
  rw [h2.2]
  exact lookupField_setField_self _ "self" inst

/-- Witness for C10: a concrete action with parameters `self` and `x`
(default 1), the `x` slot edited to 5, whose underlying function would
return 99. -/
theorem action_call_returns_none_witness :
    ((([("x", Value.vint 5)]).foldl (fun b kv => b.setArg kv.1 kv.2)
        (create_action_object (fun _ => Value.vint 99)
          [⟨"self", none⟩, ⟨"x", some (Value.vint 1)⟩]
          (Value.vinst "Owner" []))).call).returned = Value.vnone ∧
    lookupField ((([("x", Value.vint 5)]).foldl (fun b kv => b.setArg kv.1 kv.2)
        (create_action_object (fun _ => Value.vint 99)
          [⟨"self", none⟩, ⟨"x", some (Value.vint 1)⟩]
          (Value.vinst "Owner" []))).call).passedKwargs "self"
      = some (Value.vinst "Owner" []) ∧
    ((([("x", Value.vint 5)]).foldl (fun b kv => b.setArg kv.1 kv.2)
        (create_action_object (fun _ => Value.vint 99)
          [⟨"self", none⟩, ⟨"x", some (Value.vint 1)⟩]
          (Value.vinst "Owner" []))).call).passedKwargs
      = (([("x", Value.vint 5)]).foldl (fun b kv => b.setArg kv.1 kv.2)
          (create_action_object (fun _ => Value.vint 99)
            [⟨"self", none⟩, ⟨"x", some (Value.vint 1)⟩]
            (Value.vinst "Owner" []))).args :=
  action_call_returns_none (fun _ => Value.vint 99)
    [⟨"self", none⟩, ⟨"x", some (Value.vint 1)⟩]
    (Value.vinst "Owner" []) [("x", Value.vint 5)] (by decide)

end ActionTheorems

section DiscriminatorTheorems

theorem find?_append_first_match {α : Type} (p : α → Bool) (pre : List α) (x : α)
    (post : List α) (hpre : ∀ a ∈ pre, ¬ (p a = true)) (hx : p x = true) :
    (pre ++ x :: post).find? p = some x := by
  induction pre with
  | nil => simp [List.find?_cons_of_pos _ hx]
  | cons a rest ih =>
      rw [List.cons_append, List.find?_cons_of_neg _ (hpre a (by simp))]
      exact ih (fun b hb => hpre b (by simp [hb]))

/-- C4 (counterexample): `from_dict` on `Base` — whose Known-Types Set is
`{Derived}` — with a tree whose discriminator `"Phantom"` matches no
registered subtype does not fail with any error: it silently constructs an
instance of `Base` itself. -/
theorem from_dict_unknown_discriminator_no_error :
    from_dict demoTable "Base" [("__class__", Value.vstr "Phantom"), ("x", Value.vint 7)]
      = Except.ok (Value.vinst "Base" [("x", Value.vint 7)]) := by
  simp [from_dict, demoTable, baseCls, derivedCls, lookupClass, resolve_target, lookupField,
    __setstate__, classProps, get_properties, get_class_properties, insertProp, type_convert,
    isinstanceV, setField]

/-- C4 (amended): when the tree carries a discriminator and the target
class has a Known-Types Set, `from_dict` resolves the target to the first
registered subtype whose name equals the discriminator; when no registered
name matches, no error is raised — the originally passed class is kept,
and any successful construction yields an instance of that class. -/
theorem from_dict_discriminator_resolution (ct : ClassTable) (clsName : String)
    (cls : ClassDef) (kts : List String) (state : List (String × Value))
    (hc : lookupClass ct clsName = some cls)
    (hk : cls.knownTypes = some kts) :
    (∀ kt pre post, lookupField state "__class__" = some (Value.vstr kt) →
        kts = pre ++ kt :: post → (∀ k ∈ pre, ¬ (k = kt)) →
        resolve_target cls state = kt) ∧
    (∀ tv, lookupField state "__class__" = some tv →
        (∀ k ∈ kts, ¬ (Value.vstr k = tv)) →
        resolve_target cls state = cls.name ∧
        ∀ v, from_dict ct clsName state = Except.ok v →
          ∃ fs, v = Value.vinst cls.name fs) := by
  constructor
  · intro kt pre post hfound hsplit hpre
    have hfind : List.find? (fun k' => Value.vstr k' = Value.vstr kt) (pre ++ kt :: post)
        = some kt :=
      find?_append_first_match _ pre kt post
        (fun a ha h => hpre a ha (by simpa using h)) (by simp)
    simp only [resolve_target, hfound, hk, hsplit, hfind]
  · intro tv hfound hnone
    have hres : resolve_target cls state = cls.name := by
      have hfind : List.find? (fun k' => Value.vstr k' = tv) kts = none :=
        List.find?_eq_none.mpr (fun k hkk h => hnone k hkk (by simpa using h))
      simp only [resolve_target, hfound, hk, hfind]
    refine ⟨hres, ?_⟩
    intro v hv
    simp only [from_dict, hc, hres] at hv
    cases hrc : lookupClass ct cls.name with
    | none => simp [hrc] at hv
    | some rcls =>
        have hname : rcls.name = cls.name := by
          simpa using List.find?_some hrc
        cases hset : __setstate__ ct rcls rcls.defaults state with
        | mk fields err =>
            cases err with
            | none =>
                simp only [hrc, hset, Except.ok.injEq] at hv
                exact ⟨fields, by rw [← hv, hname]⟩
            | some e => simp [hrc, hset] at hv

/-- Witness for C4 (amended): on the `Base`/`Derived` table, a matching
discriminator resolves to `Derived`, and the unmatched discriminator
`"Phantom"` keeps `Base`. -/
theorem from_dict_discriminator_resolution_witness :
    (∀ kt pre post,
        lookupField [("__class__", Value.vstr "Derived")] "__class__"
          = some (Value.vstr kt) →
        ["Derived"] = pre ++ kt :: post → (∀ k ∈ pre, ¬ (k = kt)) →
        resolve_target baseCls [("__class__", Value.vstr "Derived")] = kt) ∧
    (∀ tv, lookupField [("__class__", Value.vstr "Derived")] "__class__" = some tv →
        (∀ k ∈ ["Derived"], ¬ (Value.vstr k = tv)) →
        resolve_target baseCls [("__class__", Value.vstr "Derived")] = baseCls.name ∧
        ∀ v, from_dict demoTable "Base" [("__class__", Value.vstr "Derived")] = Except.ok v →
          ∃ fs, v = Value.vinst baseCls.name fs) :=
  from_dict_discriminator_resolution demoTable "Base" baseCls ["Derived"]
    [("__class__", Value.vstr "Derived")] (by decide) (by decide)

end DiscriminatorTheorems

section SetstateErrorTheorems

/-- C7 (counterexample): deserializing the tree
`{color: "PURPLE", name: "bob"}` into a fresh `Thing` raises on the first
key — the enum scalar `"PURPLE"` matches no member — and aborts
`__setstate__`: the fields still hold the defaults, so the `name`
attribute, although present later in the tree, is never written. -/
theorem setstate_enum_failure_aborts :
    __setstate__ [thingCls] thingCls thingCls.defaults
        [("color", Value.vstr "PURPLE"), ("name", Value.vstr "bob")]
      = (thingCls.defaults, some PyErr.invalidEnumValue) ∧
    getField thingCls.defaults "name" = Value.vstr "" := by
  constructor
  · simp [__setstate__, thingCls, classProps, get_properties, get_class_properties,
      insertProp, type_convert, isinstanceV, colorEnum]
  · simp [thingCls, getField, lookupField]

/-- C7 (amended): a conversion failure on one tree key aborts
`__setstate__`: the keys preceding the failing one are written (the
returned fields are exactly those produced by processing the prefix), the
failing key's conversion error is returned, and the keys after it are
never processed. -/
theorem setstate_aborts_after_first_failure (ct : ClassTable) (cls : ClassDef)
    (fields : List (String × Value)) (pre : List (String × Value)) (k : String) (v : Value)
    (rest : List (String × Value)) (p : PropDef) (ty : Ty) (e : PyErr)
    (hfind : (classProps cls).find? (fun q => q.name = k) = some p)
    (hhint : p.hint = some ty)
    (herr : type_convert ct v ty = Except.error e)
    (hpre : (__setstate__ ct cls fields pre).2 = none) :
    __setstate__ ct cls fields (pre ++ (k, v) :: rest)
      = ((__setstate__ ct cls fields pre).1, some e) := by
  induction pre generalizing fields with
  | nil =>
      simp only [List.nil_append, __setstate__, hfind, hhint, herr]
  | cons kv0 pre' ih =>
      obtain ⟨k0, v0⟩ := kv0
      rw [List.cons_append]
      cases hf : (classProps cls).find? (fun q => q.name = k0) with
      | none =>
          simp only [__setstate__.eq_2, hf] at hpre ⊢
          exact ih fields hpre
      | some prop =>
          cases hh : prop.hint with
          | none =>
              simp only [__setstate__.eq_2, hf, hh] at hpre ⊢
              exact ih _ hpre
          | some rt =>
              cases hconv : type_convert ct v0 rt with
              | error e0 =>
                  simp [__setstate__.eq_2, hf, hh, hconv] at hpre
              | ok v' =>
                  simp only [__setstate__.eq_2, hf, hh, hconv] at hpre ⊢
                  exact ih _ hpre

/-- Witness for C7 (amended): on the `Thing` class, the tree
`{name: "bob", color: "PURPLE", name later...}` — prefix `{name: "bob"}`
succeeds, the enum key fails, and a trailing key is never reached. -/
theorem setstate_aborts_after_first_failure_witness :
    __setstate__ [thingCls] thingCls thingCls.defaults
        ([("name", Value.vstr "bob")] ++ ("color", Value.vstr "PURPLE")
          :: [("name", Value.vstr "later")])
      = ((__setstate__ [thingCls] thingCls thingCls.defaults
            [("name", Value.vstr "bob")]).1, some PyErr.invalidEnumValue) :=
  setstate_aborts_after_first_failure [thingCls] thingCls thingCls.defaults
    [("name", Value.vstr "bob")] "color" (Value.vstr "PURPLE")
    [("name", Value.vstr "later")]
    ⟨"color", some (Ty.tenum colorEnum), true, false⟩ (Ty.tenum colorEnum)
    PyErr.invalidEnumValue
    (by simp [thingCls, classProps, get_properties, get_class_properties, insertProp])
    rfl
    (by simp [type_convert, isinstanceV, colorEnum])
    (by simp [__setstate__, thingCls, classProps, get_properties, get_class_properties,
      insertProp, type_convert, isinstanceV, setField])

end SetstateErrorTheorems

section EnumTheorems

/-- C8: for an attribute declared with an enumeration type, serialization
writes the member's underlying value as the scalar
(`ComplexEncoder.default`); deserializing that scalar restores the same
member by underlying-value lookup (`type_convert`); and deserializing a
scalar matching no member's underlying value fails with the enum lookup's
`ValueError` — the spec's `InvalidEnumValue` — instead of silently
defaulting.  The hypothesis pins `(n, u)` as the member the lookup finds,
i.e. the first member with underlying value `u` (Python returns the
canonical member for aliased values). -/
theorem enum_roundtrip_and_invalid (ct : ClassTable) (e : EnumDef) (n u : String)
    (hfind : e.members.find? (fun m => m.2 = u) = some (n, u)) :
    ComplexEncoder_default ct (Value.venum e.name n u) = Except.ok (Value.vstr u) ∧
    type_convert ct (Value.vstr u) (Ty.tenum e) = Except.ok (Value.venum e.name n u) ∧
    (∀ s, (∀ m ∈ e.members, ¬ (m.2 = s)) →
        type_convert ct (Value.vstr s) (Ty.tenum e)
          = Except.error PyErr.invalidEnumValue) := by
  refine ⟨rfl, ?_, ?_⟩
  · simp [type_convert, isinstanceV, hfind]
  · intro s hs
    have hnone : e.members.find? (fun m => m.2 = s) = none :=
      List.find?_eq_none.mpr (fun m hm h => hs m hm (by simpa using h))
    simp [type_convert, isinstanceV, hnone]

/-- Witness for C8: the `Color` enumeration with current value `GREEN` —
its underlying value round-trips, and the unrecognized scalar hypothesis is
dischargeable for any non-member (exercised through the quantified
conjunct, e.g. at `"PURPLE"`). -/
theorem enum_roundtrip_and_invalid_witness :
    ComplexEncoder_default [] (Value.venum colorEnum.name "GREEN" "GREEN")
      = Except.ok (Value.vstr "GREEN") ∧
    type_convert [] (Value.vstr "GREEN") (Ty.tenum colorEnum)
      = Except.ok (Value.venum colorEnum.name "GREEN" "GREEN") ∧
    (∀ s, (∀ m ∈ colorEnum.members, ¬ (m.2 = s)) →
        type_convert [] (Value.vstr s) (Ty.tenum colorEnum)
          = Except.error PyErr.invalidEnumValue) :=
  enum_roundtrip_and_invalid [] colorEnum "GREEN" "GREEN" (by decide)

end EnumTheorems

section RegistryTheorems

/-- C2 (counterexample): with controls registered for value types `Base`
and then `Derived` (`Derived` a subtype of `Base`), both control types
having equal ancestry-chain length, resolving for `Derived` returns the
`Base`-registered control — the ascending stable sort on chain length
followed by `candidates[0]` picks the earliest registration on ties, not
the most specific value-type match. -/
theorem resolve_derived_returns_base_widget :
    get_widget_class_from_value_class demoTable demoRegistry (Ty.tcls "Derived")
      = Except.ok wBase ∧ wBase ≠ wDerived := by
  constructor
  · simp [get_widget_class_from_value_class, candidatesOf, demoRegistry, demoTable,
      is_subtype, mroOf, lookupClass, baseCls, derivedCls, firstMinBy, widgetSortKey,
      wBase, wDerived]
  · decide

theorem firstMinBy_spec (key : WidgetCls → Nat) :
    ∀ (xs : List WidgetCls) (x : WidgetCls),
      ∃ pre post,
        x :: xs = pre ++ (firstMinBy key x xs) :: post ∧
        (∀ c ∈ pre, key (firstMinBy key x xs) < key c) ∧
        (∀ c ∈ post, key (firstMinBy key x xs) ≤ key c) ∧
        key (firstMinBy key x xs) ≤ key x := by
  intro xs
  induction xs with
  | nil => exact fun x => ⟨[], [], rfl, by simp, by simp, le_refl _⟩
  | cons y xs ih =>
      intro x
      by_cases h : key y < key x
      · have hr : firstMinBy key x (y :: xs) = firstMinBy key y xs := by
          unfold firstMinBy
          rw [List.foldl_cons, if_pos h]
        obtain ⟨pre, post, hsplit, hpre, hpost, hle⟩ := ih y
        rw [hr]
        refine ⟨x :: pre, post, ?_, ?_, hpost, le_of_lt (lt_of_le_of_lt hle h)⟩
        · rw [List.cons_append, ← hsplit]
        · intro c hc
          rcases List.mem_cons.mp hc with rfl | hc'
          · exact lt_of_le_of_lt hle h
          · exact hpre c hc'
      · have hr : firstMinBy key x (y :: xs) = firstMinBy key x xs := by
          unfold firstMinBy
          rw [List.foldl_cons, if_neg h]
        obtain ⟨pre, post, hsplit, hpre, hpost, hle⟩ := ih x
        rw [hr]
        cases pre with
        | nil =>
            rw [List.nil_append] at hsplit
            injection hsplit with h1 h2
            refine ⟨[], y :: xs, ?_, by simp, ?_, ?_⟩
            · rw [List.nil_append, ← h1]
            · intro c hc
              rcases List.mem_cons.mp hc with hcy | hc'
              · rw [hcy, ← h1]
                exact le_of_not_lt h
              · rw [h2] at hc'
                exact hpost c hc'
            · rw [← h1]
        | cons p0 pre' =>
            rw [List.cons_append] at hsplit
            injection hsplit with h1 h2
            rw [← h1] at hpre
            refine ⟨x :: y :: pre', post, ?_, ?_, hpost, hle⟩
            · rw [List.cons_append, List.cons_append, ← h2]
            · intro c hc
              rcases List.mem_cons.mp hc with hcx | hc'
              · rw [hcx]
                exact hpre x (by simp)
              · rcases List.mem_cons.mp hc' with hcy | hc''
                · rw [hcy]
                  exact lt_of_lt_of_le (hpre x (by simp)) (le_of_not_lt h)
                · exact hpre c (by simp [hc''])

/-- C2 (amended): for a non-empty candidate set, registry resolution
returns the earliest-registered candidate whose sort key — the control
type's ancestry-chain length, plus a 999 penalty for the generic
composite-object form control — is minimal: every earlier candidate has a
strictly larger key and every later candidate a key at least as large.
In particular, for `Base`/`Derived` registrations whose control types have
equal chain length, resolving for `Derived` returns the earlier (`Base`)
registration. -/
theorem resolve_returns_earliest_min (ct : ClassTable) (reg : WidgetRegistry) (cls : Ty)
    (h : candidatesOf ct reg cls ≠ []) :
    ∃ w pre post,
      get_widget_class_from_value_class ct reg cls = Except.ok w ∧
      candidatesOf ct reg cls = pre ++ w :: post ∧
      (∀ c ∈ pre, widgetSortKey w < widgetSortKey c) ∧
      (∀ c ∈ post, widgetSortKey w ≤ widgetSortKey c) := by
  cases hc : candidatesOf ct reg cls with
  | nil => exact absurd hc h
  | cons x xs =>
      obtain ⟨pre, post, hsplit, hpre, hpost, -⟩ := firstMinBy_spec widgetSortKey xs x
      refine ⟨firstMinBy widgetSortKey x xs, pre, post, ?_, ?_, hpre, hpost⟩
      · simp [get_widget_class_from_value_class, hc]
      · exact hsplit

/-- Witness for C2 (amended): the `Base`/`Derived` registry has a non-empty
candidate set for `Derived`, and resolution returns its earliest minimal
candidate. -/
theorem resolve_returns_earliest_min_witness :
    ∃ w pre post,
      get_widget_class_from_value_class demoTable demoRegistry (Ty.tcls "Derived")
        = Except.ok w ∧
      candidatesOf demoTable demoRegistry (Ty.tcls "Derived") = pre ++ w :: post ∧
      (∀ c ∈ pre, widgetSortKey w < widgetSortKey c) ∧
      (∀ c ∈ post, widgetSortKey w ≤ widgetSortKey c) :=
  resolve_returns_earliest_min demoTable demoRegistry (Ty.tcls "Derived") (by
    simp [candidatesOf, demoRegistry, demoTable, is_subtype, mroOf, lookupClass,
      baseCls, derivedCls])

end RegistryTheorems

section ReflectionTheorems

theorem foldl_levels_flatten (ls : List (List PropDef)) (acc : List PropDef) :
    ls.foldl (fun a cp => cp.foldl insertProp a) acc = (ls.flatten).foldl insertProp acc := by
  induction ls generalizing acc with
  | nil => rfl
  | cons cp rest ih => rw [List.foldl_cons, List.flatten_cons, List.foldl_append, ih]

theorem get_properties_eq_foldl (ancestry : List (List PropDef)) :
    get_properties ancestry = (ancestry.flatten).foldl insertProp [] :=
  foldl_levels_flatten ancestry []

theorem lastDecl_name (p : PropDef) (rest : List PropDef) :
    (lastDecl p rest).name = p.name := by
  unfold lastDecl
  have hgen : ∀ (fr : List PropDef) (b : PropDef), b.name = p.name →
      (∀ q ∈ fr, q.name = p.name) → (fr.foldl (fun _ q => q) b).name = p.name := by
    intro fr
    induction fr with
    | nil => exact fun b hb _ => hb
    | cons a fr ih =>
        intro b _ hall
        rw [List.foldl_cons]
        exact ih a (hall a (by simp)) (fun q hq => hall q (by simp [hq]))
  exact hgen _ p rfl (fun q hq => by simpa using (List.mem_filter.mp hq).2)

theorem lastDecl_concat (p q : PropDef) (rest : List PropDef) :
    lastDecl p (rest ++ [q]) = if q.name = p.name then q else lastDecl p rest := by
  unfold lastDecl
  rw [List.filter_append]
  by_cases hq : q.name = p.name
  · rw [if_pos hq]
    have : List.filter (fun r => decide (r.name = p.name)) [q] = [q] := by
      simp [hq]
    rw [this, List.foldl_append]
    rfl
  · rw [if_neg hq]
    have : List.filter (fun r => decide (r.name = p.name)) [q] = [] := by
      simp [hq]
    rw [this, List.append_nil]

theorem mem_canonicalMerge_names (l : List PropDef) (q : PropDef)
    (hq : q ∈ canonicalMerge l) : ∃ r ∈ l, q.name = r.name := by
  induction l using canonicalMerge.induct with
  | case1 => simp [canonicalMerge] at hq
  | case2 p rest ih =>
      rw [canonicalMerge] at hq
      rcases List.mem_cons.mp hq with heq | hmem
      · exact ⟨p, by simp, by rw [heq, lastDecl_name]⟩
      · obtain ⟨r, hr, hname⟩ := ih hmem
        exact ⟨r, List.mem_cons_of_mem _ (List.mem_filter.mp hr).1, hname⟩

theorem map_replace_id (C : List PropDef) (x : PropDef)
    (h : ∀ q ∈ C, ¬ (q.name = x.name)) :
    C.map (fun q => if q.name = x.name then x else q) = C := by
  induction C with
  | nil => rfl
  | cons a rest ih =>
      rw [List.map_cons, if_neg (h a (by simp)), ih (fun q hq => h q (by simp [hq]))]

theorem insertProp_cons_ne (a : PropDef) (C : List PropDef) (p : PropDef)
    (h : ¬ (a.name = p.name)) :
    insertProp (a :: C) p = a :: insertProp C p := by
  unfold insertProp
  rw [List.any_cons, decide_eq_false h, Bool.false_or]
  by_cases hC : C.any (fun q => q.name = p.name)
  · rw [if_pos hC, if_pos hC, List.map_cons, if_neg h]
  · rw [if_neg hC, if_neg hC, List.cons_append]

theorem canonicalMerge_concat (xs : List PropDef) (p : PropDef) :
    canonicalMerge (xs ++ [p]) = insertProp (canonicalMerge xs) p := by
  suffices H : ∀ (n : Nat) (xs : List PropDef), xs.length = n →
      canonicalMerge (xs ++ [p]) = insertProp (canonicalMerge xs) p by
    exact H xs.length xs rfl
  intro n
  induction n using Nat.strong_induction_on with
  | _ n IH =>
      intro xs hn
      cases xs with
      | nil =>
          simp [canonicalMerge, lastDecl, insertProp]
      | cons q rest =>
          rw [List.cons_append, canonicalMerge, canonicalMerge, lastDecl_concat]
          by_cases hqp : p.name = q.name
          · rw [if_pos hqp]
            have hfilter : (rest ++ [p]).filter (fun r => ¬ (r.name = q.name))
                = rest.filter (fun r => ¬ (r.name = q.name)) := by
              rw [List.filter_append]
              have : List.filter (fun r => decide ¬ (r.name = q.name)) [p] = [] := by
                simp [hqp]
              rw [this, List.append_nil]
            rw [hfilter]
            have hany : ((lastDecl q rest :: canonicalMerge
                (rest.filter (fun r => ¬ (r.name = q.name)))).any
                  (fun w => w.name = p.name)) = true := by
              rw [List.any_cons]
              have : (lastDecl q rest).name = p.name := by rw [lastDecl_name, hqp]
              simp [this]
            unfold insertProp
            rw [if_pos hany, List.map_cons,
              if_pos (by rw [lastDecl_name, hqp]),
              map_replace_id _ p (fun w hw => by
                obtain ⟨r, hr, hname⟩ := mem_canonicalMerge_names _ w hw
                have hrne : ¬ (r.name = q.name) := by
                  simpa using (List.mem_filter.mp hr).2
                rw [hname]
                exact fun hc => hrne (by rw [hc]; exact hqp))]
          · rw [if_neg hqp]
            have hfilter : (rest ++ [p]).filter (fun r => ¬ (r.name = q.name))
                = rest.filter (fun r => ¬ (r.name = q.name)) ++ [p] := by
              rw [List.filter_append]
              have : List.filter (fun r => decide ¬ (r.name = q.name)) [p] = [p] := by
                simp [hqp]
              rw [this]
            rw [hfilter,
              IH (rest.filter (fun r => ¬ (r.name = q.name))).length
                (by rw [← hn]; simpa using Nat.lt_succ_of_le (List.length_filter_le _ _))
                _ rfl,
              insertProp_cons_ne _ _ _ (by
                rw [lastDecl_name]
                exact fun hc => hqp hc.symm)]

theorem foldl_insertProp_canonical (flat : List PropDef) :
    flat.foldl insertProp [] = canonicalMerge flat := by
  induction flat using List.reverseRecOn with
  | nil => simp [canonicalMerge]
  | append_singleton xs p ih =>
      rw [List.foldl_append, List.foldl_cons, List.foldl_nil, ih, canonicalMerge_concat]

/-- C6: attribute reflection walks the ancestry from most-ancestral to
most-derived and merges declared attributes into one ordered mapping equal
to `canonicalMerge` of the concatenated declarations: every name sits at
the position of its first (most-ancestral) declaration and maps to its
last (most-derived) declaration, so a derived redeclaration replaces the
ancestor's definition in place while names declared only in the derived
type follow in the derived type's declaration order. -/
theorem get_properties_canonical (ancestry : List (List PropDef)) :
    get_properties ancestry = canonicalMerge ancestry.flatten := by
  rw [get_properties_eq_foldl, foldl_insertProp_canonical]

end ReflectionTheorems

section RoundTrip

theorem names_map_replace (acc : List PropDef) (p : PropDef) :
    (acc.map (fun q => if q.name = p.name then p else q)).map PropDef.name
      = acc.map PropDef.name := by
  induction acc with
  | nil => rfl
  | cons a rest ih =>
      rw [List.map_cons, List.map_cons, List.map_cons, ih]
      by_cases ha : a.name = p.name
      · rw [if_pos ha, ha]
      · rw [if_neg ha]

theorem insertProp_names_nodup (acc : List PropDef) (p : PropDef)
    (h : (acc.map PropDef.name).Nodup) :
    ((insertProp acc p).map PropDef.name).Nodup := by
  unfold insertProp
  by_cases hany : acc.any (fun q => q.name = p.name)
  · rw [if_pos hany, names_map_replace]
    exact h
  · rw [if_neg hany, List.map_append]
    refine List.Nodup.append h (by simp) ?_
    intro x hx1 hx2
    simp only [List.map_cons, List.map_nil, List.mem_singleton] at hx2
    obtain ⟨q, hq, hqn⟩ := List.mem_map.mp hx1
    exact hany (List.any_eq_true.mpr ⟨q, hq, by simp [hqn, hx2]⟩)

theorem get_properties_names_nodup (ancestry : List (List PropDef)) :
    ((get_properties ancestry).map PropDef.name).Nodup := by
  rw [get_properties_eq_foldl]
  have hgen : ∀ (flat acc : List PropDef), (acc.map PropDef.name).Nodup →
      ((flat.foldl insertProp acc).map PropDef.name).Nodup := by
    intro flat
    induction flat with
    | nil => exact fun acc h => h
    | cons a rest ih =>
        intro acc h
        rw [List.foldl_cons]
        exact ih _ (insertProp_names_nodup acc a h)
  exact hgen _ [] (by simp)

theorem find?_name_of_mem (l : List PropDef) (p : PropDef) (hp : p ∈ l)
    (hnd : (l.map PropDef.name).Nodup) :
    l.find? (fun q => q.name = p.name) = some p := by
  induction l with
  | nil => cases hp
  | cons a rest ih =>
      rw [List.map_cons] at hnd
      have hnd' := List.nodup_cons.mp hnd
      rcases List.mem_cons.mp hp with heq | hmem
      · rw [heq, List.find?_cons_of_pos _ (by simp)]
      · have ha : ¬ (a.name = p.name) := by
          intro hEq
          exact hnd'.1 (hEq ▸ List.mem_map_of_mem PropDef.name hmem)
        rw [List.find?_cons_of_neg _ (by simpa using ha)]
        exact ih hmem hnd'.2

theorem convert_items_id (ct : ClassTable) (e : Ty) (xs : List Value)
    (h : ∀ x ∈ xs, isinstanceV ct x e = true) :
    convert_items ct e xs = Except.ok xs := by
  induction xs with
  | nil => simp [convert_items]
  | cons x rest ih =>
      have hx := h x (List.mem_cons_self x rest)
      have hr := ih (fun y hy => h y (List.mem_cons_of_mem x hy))
      rw [convert_items.eq_def]
      simp only [hx, hr, if_true]
      rfl

theorem type_convert_id_of_wellTyped (ct : ClassTable) (v : Value) (ty : Ty)
    (h : wellTypedVal ct v ty = true) : type_convert ct v ty = Except.ok v := by
  cases ty
  case tlist e =>
      simp only [wellTypedVal] at h
      cases v <;> simp at h
      case vlist xs =>
        have hconv := convert_items_id ct e xs (fun x hx => h x hx)
        rw [type_convert.eq_def]
        simp only [isinstanceV, hconv, Bool.not_true, Bool.false_eq_true, if_false]
        rfl
  case tlistRaw => simp [wellTypedVal] at h
  case tobj =>
      rw [type_convert.eq_def]
      simp [isinstanceV]
  all_goals simp [wellTypedVal] at h
  all_goals (rw [type_convert.eq_def]; simp [h])

theorem setstate_clean (ct : ClassTable) (cls : ClassDef) (fields tree : List (String × Value))
    (h : ∀ kv ∈ tree, ∃ p, (classProps cls).find? (fun q => q.name = kv.1) = some p ∧
          p.hasSetter = true ∧
          ∀ ty, p.hint = some ty → type_convert ct kv.2 ty = Except.ok kv.2) :
    __setstate__ ct cls fields tree
      = (tree.foldl (fun fs kv => setField fs kv.1 kv.2) fields, none) := by
  induction tree generalizing fields with
  | nil => simp [__setstate__]
  | cons kv rest ih =>
      obtain ⟨k, v⟩ := kv
      obtain ⟨p, hf, hset, hconv⟩ := h (k, v) (by simp)
      have hrest : ∀ kv ∈ rest, ∃ p,
          (classProps cls).find? (fun q => q.name = kv.1) = some p ∧
          p.hasSetter = true ∧
          ∀ ty, p.hint = some ty → type_convert ct kv.2 ty = Except.ok kv.2 :=
        fun kv hkv => h kv (List.mem_cons_of_mem _ hkv)
      rw [List.foldl_cons]
      cases hh : p.hint with
      | none =>
          simp only [__setstate__.eq_2, hf, hh, hset, if_true]
          exact ih (setField fields k v) hrest
      | some ty =>
          simp only [__setstate__.eq_2, hf, hh, hconv ty hh, hset, if_true]
          exact ih (setField fields k v) hrest

theorem getField_foldl_setField_not_mem (tree : List (String × Value))
    (fields : List (String × Value)) (k : String)
    (h : ∀ kv ∈ tree, ¬ (kv.1 = k)) :
    getField (tree.foldl (fun fs kv => setField fs kv.1 kv.2) fields) k
      = getField fields k := by
  induction tree generalizing fields with
  | nil => rfl
  | cons kv rest ih =>
      rw [List.foldl_cons, ih _ (fun x hx => h x (by simp [hx]))]
      exact getField_setField_ne fields kv.1 k kv.2 (fun hk => h kv (by simp) hk.symm)

theorem getField_foldl_setField_of_mem (tree : List (String × Value))
    (fields : List (String × Value)) (k : String) (v : Value)
    (hmem : (k, v) ∈ tree) (hnd : (tree.map Prod.fst).Nodup) :
    getField (tree.foldl (fun fs kv => setField fs kv.1 kv.2) fields) k = v := by
  induction tree generalizing fields with
  | nil => cases hmem
  | cons kv rest ih =>
      rw [List.foldl_cons]
      rw [List.map_cons] at hnd
      have hnd' := List.nodup_cons.mp hnd
      rcases List.mem_cons.mp hmem with heq | hmem'
      · have hk1 : kv.1 = k := by rw [← heq]
        have hv : kv.2 = v := by rw [← heq]
        have hnotin : ∀ x ∈ rest, ¬ (x.1 = k) := by
          intro x hx hxk
          refine hnd'.1 ?_
          rw [hk1, ← hxk]
          exact List.mem_map_of_mem Prod.fst hx
        rw [getField_foldl_setField_not_mem rest _ k hnotin, hk1, hv]
        exact getField_setField_self fields k v
      · exact ih _ hmem' hnd'.2

theorem filterMap_encode_eq_map (fields : List (String × Value)) (l : List PropDef)
    (h : ∀ p ∈ l, p.dontEncode = false) :
    l.filterMap (fun p =>
        if ¬ p.dontEncode then some (p.name, getField fields p.name) else none)
      = l.map (fun p => (p.name, getField fields p.name)) := by
  induction l with
  | nil => rfl
  | cons a rest ih =>
      rw [List.filterMap_cons, List.map_cons]
      have ha : a.dontEncode = false := h a (by simp)
      rw [ha]
      simp only [Bool.false_eq_true, not_false_eq_true, if_true]
      rw [ih (fun p hp => h p (by simp [hp]))]

theorem to_dict_eq_map (cls : ClassDef) (fields : List (String × Value))
    (h : ∀ p ∈ classProps cls, p.dontEncode = false) :
    to_dict cls fields false = (classProps cls).map (fun p => (p.name, getField fields p.name)) := by
  unfold to_dict
  rw [if_neg (by simp), List.nil_append]
  exact filterMap_encode_eq_map fields _ h

/-- C1: serializing an instance with `to_dict` and deserializing the
resulting tree with `from_dict` into a freshly constructed instance of the
same type restores every reflected attribute's value — including nested
composite instances and lists of polymorphic elements, which travel through
the tree as the very values the getters returned and are written back
unchanged.  Hypotheses: the class is registered in the table under its own
name, and every merged property has a setter, is encoded, is not named
`"__class__"`, and stores a value of its declared type (well-typedness,
element-wise for list hints). -/
theorem to_dict_from_dict_roundtrip (ct : ClassTable) (cls : ClassDef)
    (fields : List (String × Value))
    (hct : lookupClass ct cls.name = some cls)
    (hprops : ∀ p ∈ classProps cls,
        p.hasSetter = true ∧ p.dontEncode = false ∧ ¬ (p.name = "__class__") ∧
        Option.all (fun ty => wellTypedVal ct (getField fields p.name) ty) p.hint = true) :
    ∃ fields',
      from_dict ct cls.name (to_dict cls fields false)
        = Except.ok (Value.vinst cls.name fields') ∧
      ∀ p ∈ classProps cls, getField fields' p.name = getField fields p.name := by
  have hEnc : ∀ p ∈ classProps cls, p.dontEncode = false := fun p hp => (hprops p hp).2.1
  have htree : to_dict cls fields false
      = (classProps cls).map (fun p => (p.name, getField fields p.name)) :=
    to_dict_eq_map cls fields hEnc
  have hnames : ((classProps cls).map PropDef.name).Nodup :=
    get_properties_names_nodup cls.ancestry
  have hkeys : ((to_dict cls fields false).map Prod.fst) = (classProps cls).map PropDef.name := by
    rw [htree, List.map_map]
    rfl
  have hdisc : lookupField (to_dict cls fields false) "__class__" = none := by
    unfold lookupField
    have hfn : (to_dict cls fields false).find? (fun p => decide (p.1 = "__class__"))
        = none := by
      rw [List.find?_eq_none]
      intro kv hkv
      rw [htree] at hkv
      obtain ⟨p, hp, rfl⟩ := List.mem_map.mp hkv
      simpa using (hprops p hp).2.2.1
    rw [hfn]
    rfl
  have hres : resolve_target cls (to_dict cls fields false) = cls.name := by
    cases hkk : cls.knownTypes <;> simp [resolve_target, hdisc, hkk]
  have hclean : __setstate__ ct cls cls.defaults (to_dict cls fields false)
      = ((to_dict cls fields false).foldl (fun fs kv => setField fs kv.1 kv.2)
          cls.defaults, none) := by
    apply setstate_clean
    intro kv hkv
    rw [htree] at hkv
    obtain ⟨p, hp, rfl⟩ := List.mem_map.mp hkv
    refine ⟨p, find?_name_of_mem _ p hp hnames, (hprops p hp).1, ?_⟩
    intro ty hty
    have h4 := (hprops p hp).2.2.2
    rw [hty] at h4
    simp only [Option.all] at h4
    exact type_convert_id_of_wellTyped ct _ ty h4
  refine ⟨(to_dict cls fields false).foldl (fun fs kv => setField fs kv.1 kv.2)
      cls.defaults, ?_, ?_⟩
  · simp only [from_dict, hct, hres, hclean]
  · intro p hp
    have hmem : (p.name, getField fields p.name) ∈ to_dict cls fields false := by
      rw [htree]
      exact List.mem_map_of_mem _ hp
    have hnd : ((to_dict cls fields false).map Prod.fst).Nodup := by
      rw [hkeys]
      exact hnames
    exact getField_foldl_setField_of_mem _ _ _ _ hmem hnd

/-- Witness for C1: the `Scene` instance — a string attribute, a nested
`Point`, a polymorphic list holding a `Circle` and a `Square` (both in
`Shape`'s Known-Types Set), and the enum value `GREEN` — round-trips
through `to_dict` and `from_dict` attribute by attribute. -/
theorem to_dict_from_dict_roundtrip_witness :
    ∃ fields',
      from_dict sceneTable sceneCls.name (to_dict sceneCls sceneInstFields false)
        = Except.ok (Value.vinst sceneCls.name fields') ∧
      ∀ p ∈ classProps sceneCls,
        getField fields' p.name = getField sceneInstFields p.name :=
  to_dict_from_dict_roundtrip sceneTable sceneCls sceneInstFields (by decide) (by decide)

end RoundTrip

end QtPW
